import Mathlib

/-!
Verification of the medaCy annotation model and comparison engine.

The annotation module (the `Annotations` class, its parsers, serializer,
comparison engine and mutation API) is exercised by the test suite but its
implementation file is not part of the sources at hand; all definitions
below are therefore modelled from the specification document, faithful to
its words (data model section 3, component design section 4, error handling
section 7).  Entities are labeled character spans; identity for set
operations is the 4-tuple (label, start, end, text).  Files are modelled as
lists of characters; the file system as a partial map from paths to
contents.
-/

namespace Medacy

/-- Modelled from the spec: the error taxonomy of section 7 — invalid-format
error, not-found error, type error, and the value error mentioned for
explicit compatibility checks. -/
inductive MedErr where
  | InvalidAnnotationError
  | FileNotFoundError
  | TypeError
  | ValueError
deriving DecidableEq

/-- Modelled from the spec: an Entity (section 3), a single labeled span
with character offsets into the source text. -/
structure Entity where
  label : String
  start : Nat
  «end» : Nat
  text : String
deriving DecidableEq

/-- Modelled from the spec: a Relation (section 3), an ordered pair of
entity references (surrogate integer keys) plus a relation-type label. -/
structure Relation where
  label : String
  entity_1 : Nat
  entity_2 : Nat
deriving DecidableEq

/-- Modelled from the spec: the canonical Annotation Model (section 3) —
ordered sequence of entities and relations, each stored in an arena indexed
by a surrogate integer key (design notes), plus an optional immutable
source text. -/
structure Annotations where
  entities : List (Nat × Entity)
  relations : List (Nat × Relation)
  source_text : Option String
deriving DecidableEq

/-- The four-field identity tuple (label, start, end, text) of an entity. -/
abbrev EntTuple : Type := String × Nat × Nat × String

instance {ε α : Type} [DecidableEq ε] [DecidableEq α] :
    DecidableEq (Except ε α) := fun x y =>
  match x, y with
  | .ok a, .ok b =>
    if h : a = b then isTrue (by rw [h])
    else isFalse (fun hc => h (Except.ok.inj hc))
  | .error e, .error f =>
    if h : e = f then isTrue (by rw [h])
    else isFalse (fun hc => h (Except.error.inj hc))
  | .ok _, .error _ => isFalse (fun hc => Except.noConfusion hc)
  | .error _, .ok _ => isFalse (fun hc => Except.noConfusion hc)

/-- View an entity as its identity 4-tuple, in field order
(label, start, end, text). -/
def Entity.tuple (e : Entity) : EntTuple := (e.label, e.start, e.«end», e.text)

/-- Modelled from the spec: get_entity_annotations returns the list of
entity 4-tuples in model order (the dictionary-free form used by the
comparison engine and the tests). -/
def get_entity_annotations (A : Annotations) : List EntTuple :=
  A.entities.map (fun p => p.2.tuple)

/-- Modelled from the spec: get_entity_annotations with return_dictionary
set returns the dictionary representation, a mapping from surrogate ID to
entity fields. -/
def get_entity_annotations_dict (A : Annotations) : List (Nat × Entity) :=
  A.entities

/-- Fresh surrogate key for a model: one more than the largest key in use. -/
def next_key (A : Annotations) : Nat :=
  (A.entities.map Prod.fst).foldr max 0 + 1

/-- Modelled from the spec: add_entity (section 4.4) appends a new Entity
with a fresh surrogate key; the observed behavior accepts the fields
un-validated when no source text check is requested (permissive policy). -/
def add_entity (A : Annotations) (label : String) (start stop : Nat)
    (text : String) : Annotations :=
  { A with entities := A.entities ++ [(next_key A, ⟨label, start, stop, text⟩)] }

/-- Modelled from the spec: difference (section 4.3) — the entities of A
with no identical four-field match in B, in the order of A. -/
def difference (A B : Annotations) : List EntTuple :=
  (get_entity_annotations A).filter
    (fun t => decide (t ∉ get_entity_annotations B))

/-- Modelled from the spec: intersection (section 4.3) — the set of
entities present in both models under the four-field identity. -/
def intersection (A B : Annotations) : Finset EntTuple :=
  (get_entity_annotations A).toFinset ∩ (get_entity_annotations B).toFinset

/-- Modelled from the spec: compute_ambiguity (section 4.3) — entities of A
sharing an identical span with some entity of B but differing in label. -/
def compute_ambiguity (A B : Annotations) : List EntTuple :=
  (get_entity_annotations A).filter
    (fun t => (get_entity_annotations B).any
      (fun u => t.2.1 == u.2.1 && t.2.2.1 == u.2.2.1 && t.1 != u.1))

/-- Span overlap predicate of section 4.3: a non-empty intersection of the
half-open ranges [start, end). -/
def spanOverlapB (t u : EntTuple) : Bool :=
  max t.2.1 u.2.1 < min t.2.2.1 u.2.2.1

/-- One cell of the confusion matrix: the number of entities of A labeled
li whose span overlaps the span of some entity of B labeled lj. -/
def confusion_cell (A B : Annotations) (li lj : String) : Nat :=
  (get_entity_annotations A).countP
    (fun t => t.1 == li && (get_entity_annotations B).any
      (fun u => u.1 == lj && spanOverlapB t u))

/-- Modelled from the spec: compute_confusion_matrix (section 4.3) — the
square matrix indexed by the supplied ordered labels whose cell (i, j)
counts entities labeled labels i in A overlapping an entity labeled
labels j in B. -/
def compute_confusion_matrix (A B : Annotations) (labels : List String) :
    List (List Nat) :=
  labels.map (fun li => labels.map (fun lj => confusion_cell A B li lj))

/-- Insert one occurrence of a label into an association-list counter,
preserving first-encounter key order as a dictionary does. -/
def bumpCount : List (String × Nat) → String → List (String × Nat)
  | [], l => [(l, 1)]
  | (k, n) :: rest, l =>
    if k = l then (k, n + 1) :: rest else (k, n) :: bumpCount rest l

/-- Modelled from the spec: compute_counts (section 4.3) — the mapping from
label to the count of entities of A bearing that label. -/
def compute_counts (A : Annotations) : List (String × Nat) :=
  (get_entity_annotations A).foldl (fun m t => bumpCount m t.1) []

/-! Character-level utilities for the file formats.  A file on disk is a
list of characters; records are newline-delimited lines. -/

/-- The numeric value of a decimal digit character, if it is one. -/
def digitVal? (c : Char) : Option Nat :=
  if '0' ≤ c ∧ c ≤ '9' then some (c.toNat - 48) else none

/-- Accumulating decimal reader over a character list; fails on the first
non-digit. -/
def charsNatAux : List Char → Nat → Option Nat
  | [], acc => some acc
  | c :: cs, acc =>
    match digitVal? c with
    | some d => charsNatAux cs (10 * acc + d)
    | none => none

/-- Read a non-empty all-digit character list as a decimal number. -/
def charsNat? (cs : List Char) : Option Nat :=
  match cs with
  | [] => none
  | _ :: _ => charsNatAux cs 0

/-- Fuel-bounded decimal rendering of a positive number, most significant
digit first; the fuel only needs to exceed the number itself. -/
def natCharsAux : Nat → Nat → List Char
  | 0, _ => []
  | _ + 1, 0 => []
  | fuel + 1, n + 1 =>
    natCharsAux fuel ((n + 1) / 10) ++ [Nat.digitChar ((n + 1) % 10)]

/-- Decimal rendering of a natural number. -/
def natChars (n : Nat) : List Char :=
  if n = 0 then ['0'] else natCharsAux (n + 1) n

/-- Split a character list at every occurrence of the separator; always
returns at least one (possibly empty) chunk, as splitting text on a
delimiter does. -/
def splitOnChar (sep : Char) : List Char → List (List Char)
  | [] => [[]]
  | c :: cs =>
    if c = sep then [] :: splitOnChar sep cs
    else
      match splitOnChar sep cs with
      | [] => [[c]]
      | l :: ls => (c :: l) :: ls

/-- Join chunks with the separator between them: the inverse of
splitOnChar on separator-free chunks. -/
def joinWithChar (sep : Char) : List (List Char) → List Char
  | [] => []
  | [l] => l
  | l :: l' :: ls => l ++ sep :: joinWithChar sep (l' :: ls)

/-- Take characters up to the first occurrence of the delimiter, returning
the prefix and the remainder after the delimiter; fails when the delimiter
is absent. -/
def takeUntilChar (c : Char) : List Char → Option (List Char × List Char)
  | [] => none
  | x :: xs =>
    if x = c then some ([], xs)
    else
      match takeUntilChar c xs with
      | some (a, b) => some (x :: a, b)
      | none => none

/-! The standoff format (annotation_type ann).  One line per entity —
surrogate ID, label, offset range, literal text — and one line per
relation, as described in sections 4.1, 4.2 and 6. -/

/-- Modelled from the spec: the serialized standoff line of an entity
record — a T-prefixed surrogate ID, a tab, the label and the two offsets
separated by spaces, a tab, and the literal text. -/
def entityLine (k : Nat) (e : Entity) : List Char :=
  'T' :: (natChars k ++
    '\t' :: ((e.label.data ++
        ' ' :: (natChars e.start ++ ' ' :: natChars e.«end»)) ++
      '\t' :: e.text.data))

/-- Modelled from the spec: the serialized standoff line of a relation
record — an R-prefixed surrogate ID, a tab, the relation label and the two
T-prefixed entity references separated by spaces. -/
def relationLine (k : Nat) (r : Relation) : List Char :=
  'R' :: (natChars k ++
    '\t' :: (r.label.data ++
      ' ' :: (('T' :: natChars r.entity_1) ++
        ' ' :: ('T' :: natChars r.entity_2))))

/-- The serialized lines of a model: one line per entity followed by one
line per relation, reusing the stored surrogate keys (section 4.1 permits
reusing the file IDs). -/
def annLines (M : Annotations) : List (List Char) :=
  M.entities.map (fun p => entityLine p.1 p.2) ++
    M.relations.map (fun p => relationLine p.1 p.2)

/-- Modelled from the spec: the serializer (section 4.2) — the standoff
text of a model, its lines joined by newlines.  It is a pure function of
the entity and relation sequences, hence deterministic. -/
def to_ann (M : Annotations) : List Char :=
  joinWithChar '\n' (annLines M)

/-- One parsed standoff record: an entity keyed record or a relation keyed
record. -/
inductive AnnRecord where
  | ent (k : Nat) (e : Entity)
  | rel (k : Nat) (r : Relation)
deriving DecidableEq

/-- Body of an entity line after the leading T: tab-separated surrogate
ID, label-and-offsets field, and literal text; enforces the data-model
invariant start < end. -/
def parseEntityBody (rest : List Char) : Option (Nat × Entity) :=
  match splitOnChar '\t' rest with
  | [idChars, middle, textChars] =>
    match charsNat? idChars, splitOnChar ' ' middle with
    | some k, [labelChars, sChars, eChars] =>
      match charsNat? sChars, charsNat? eChars with
      | some s, some e =>
        if s < e then
          some (k, ⟨String.mk labelChars, s, e, String.mk textChars⟩)
        else none
      | _, _ => none
    | _, _ => none
  | _ => none

/-- Body of a relation line after the leading R: tab-separated surrogate
ID and a field holding the relation label and two T-prefixed entity
references. -/
def parseRelBody (rest : List Char) : Option (Nat × Relation) :=
  match splitOnChar '\t' rest with
  | [idChars, middle] =>
    match charsNat? idChars, splitOnChar ' ' middle with
    | some k, [labelChars, a1, a2] =>
      match a1, a2 with
      | 'T' :: e1Chars, 'T' :: e2Chars =>
        match charsNat? e1Chars, charsNat? e2Chars with
        | some e1, some e2 =>
          some (k, ⟨String.mk labelChars, e1, e2⟩)
        | _, _ => none
      | _, _ => none
    | _, _ => none
  | _ => none

/-- Modelled from the spec: parse one standoff line into a record; a line
fitting neither record shape yields none (an invalid-format condition). -/
def parseAnnLine (line : List Char) : Option AnnRecord :=
  match line with
  | [] => none
  | c :: rest =>
    if c = 'T' then (parseEntityBody rest).map (fun p => .ent p.1 p.2)
    else if c = 'R' then (parseRelBody rest).map (fun p => .rel p.1 p.2)
    else none

/-- Parse a list of standoff lines, skipping blank lines; the first line
that fits neither record shape aborts with the invalid-format error
(section 4.1). -/
def parseAnnLines : List (List Char) →
    Except MedErr (List (Nat × Entity) × List (Nat × Relation))
  | [] => .ok ([], [])
  | line :: rest =>
    if line = [] then parseAnnLines rest
    else
      match parseAnnLine line with
      | some (.ent k e) =>
        match parseAnnLines rest with
        | .ok (es, rs) => .ok ((k, e) :: es, rs)
        | .error err => .error err
      | some (.rel k r) =>
        match parseAnnLines rest with
        | .ok (es, rs) => .ok (es, (k, r) :: rs)
        | .error err => .error err
      | none => .error .InvalidAnnotationError

/-- Modelled from the spec: the standoff parser (section 4.1) — split the
file into lines and parse each record, preserving the surrogate IDs of the
file; construction either fully succeeds or fails atomically. -/
def from_ann (content : List Char) : Except MedErr Annotations :=
  match parseAnnLines (splitOnChar '\n' content) with
  | .ok (es, rs) => .ok ⟨es, rs, none⟩
  | .error err => .error err

/-! The inline bracketed format (annotation_type con), sections 4.1 and 6:
concept text in quotes, two line-and-token coordinates, and a quoted label,
resolved against the raw source text. -/

/-- One syntactically parsed con record: concept text, start line, start
token, end line, end token, and the label. -/
structure ConRecord where
  txt : List Char
  l1 : Nat
  t1 : Nat
  l2 : Nat
  t2 : Nat
  lab : List Char
deriving DecidableEq

/-- Modelled from the spec: parse the bracket syntax of one con line —
concept text in quotes, line-colon-token start and end coordinates, and
the quoted concept label; any deviation from the shape fails. -/
def parseConLine (line : List Char) : Option ConRecord :=
  match line with
  | 'c' :: '=' :: '"' :: rest =>
    match takeUntilChar '"' rest with
    | none => none
    | some (txt, r1) =>
      match r1 with
      | ' ' :: r2 =>
        match takeUntilChar ':' r2 with
        | none => none
        | some (l1c, r3) =>
          match takeUntilChar ' ' r3 with
          | none => none
          | some (t1c, r4) =>
            match takeUntilChar ':' r4 with
            | none => none
            | some (l2c, r5) =>
              match takeUntilChar '|' r5 with
              | none => none
              | some (t2c, r6) =>
                match r6 with
                | '|' :: 't' :: '=' :: '"' :: r7 =>
                  match takeUntilChar '"' r7 with
                  | some (lab, []) =>
                    match charsNat? l1c, charsNat? t1c,
                        charsNat? l2c, charsNat? t2c with
                    | some l1, some t1, some l2, some t2 =>
                      some ⟨txt, l1, t1, l2, t2, lab⟩
                    | _, _, _, _ => none
                  | _ => none
                | _ => none
      | _ => none
  | _ => none

/-- Character offset of the start of a one-based line number within the
source, counting the newline after every earlier line; none when the line
number does not resolve. -/
def lineStartOffset (lines : List (List Char)) (l : Nat) : Option Nat :=
  if l = 0 then none
  else if l - 1 < lines.length then
    some ((lines.take (l - 1)).foldl (fun a ln => a + ln.length + 1) 0)
  else none

/-- Start and end offsets, within its line, of the zero-based token at the
given index, tokens being the space-separated chunks of the line; none when
the index does not resolve. -/
def tokenSpan (line : List Char) (t : Nat) : Option (Nat × Nat) :=
  let toks := splitOnChar ' ' line
  if t < toks.length then
    let before := (toks.take t).foldl (fun a l => a + l.length + 1) 0
    some (before, before + (toks.getD t []).length)
  else none

/-- Modelled from the spec: resolve one con record against the source text
(section 4.1) — token coordinates become absolute character offsets, and
the concept text is validated against the source substring; an
unresolvable position or a mismatch fails. -/
def conResolve (src : List Char) (r : ConRecord) : Option Entity :=
  let lines := splitOnChar '\n' src
  match lineStartOffset lines r.l1, lineStartOffset lines r.l2 with
  | some ls1, some ls2 =>
    match tokenSpan (lines.getD (r.l1 - 1) []) r.t1,
        tokenSpan (lines.getD (r.l2 - 1) []) r.t2 with
    | some (s1, _), some (_, e2) =>
      let start := ls1 + s1
      let stop := ls2 + e2
      if start < stop ∧ (src.drop start).take (stop - start) = r.txt then
        some ⟨String.mk r.lab, start, stop, String.mk r.txt⟩
      else none
    | _, _ => none
  | _, _ => none

/-- Parse a list of con lines, skipping blank lines; a line whose bracket
syntax does not parse, or whose token position does not resolve, aborts
with the invalid-format error. -/
def parseConLines (src : List Char) : List (List Char) →
    Except MedErr (List Entity)
  | [] => .ok []
  | line :: rest =>
    if line = [] then parseConLines src rest
    else
      match parseConLine line with
      | none => .error .InvalidAnnotationError
      | some r =>
        match conResolve src r with
        | none => .error .InvalidAnnotationError
        | some e =>
          match parseConLines src rest with
          | .ok es => .ok (e :: es)
          | .error err => .error err

/-- Modelled from the spec: the inline parser (section 4.1) — parse every
con line against the source text, assign fresh surrogate keys in order,
and record the source text on the model. -/
def from_con (content src : List Char) : Except MedErr Annotations :=
  match parseConLines src (splitOnChar '\n' content) with
  | .ok es =>
    .ok ⟨es.enum.map (fun p => (p.1 + 1, p.2)), [], some (String.mk src)⟩
  | .error err => .error err

/-! The construction entry point (section 6): a file path plus a format
tag, or an in-memory dictionary; anything else is a type error. -/

/-- Modelled from the spec: the dictionary exchange shape (section 6) with
its two required keys, either of which may be absent (as in the empty
dictionary). -/
structure RawDict where
  entities : Option (List (Nat × Entity))
  relations : Option (List (Nat × Relation))

/-- The empty dictionary: both required keys absent. -/
def emptyDict : RawDict := ⟨none, none⟩

/-- Modelled from the spec: the dictionary constructor (section 4.1) — a
mapping missing either required key raises the invalid-format error. -/
def from_dict (d : RawDict) : Except MedErr Annotations :=
  match d.entities, d.relations with
  | some es, some rs => .ok ⟨es, rs, none⟩
  | _, _ => .error .InvalidAnnotationError

/-- A constructor argument: a dictionary, a path string, or some value of
any other type (such as an empty sequence). -/
inductive InputValue where
  | dict (d : RawDict)
  | path (p : String)
  | otherValue

/-- The file system seen by the constructor: a partial map from path to
file contents. -/
def FileSystem : Type := String → Option (List Char)

/-- Modelled from the spec: the construction entry point (sections 4.1 and
6) — dispatch on the argument type; a nonexistent annotation file is a
not-found error before any parsing; the con format further requires an
existing source-text file; a non-dictionary, non-string argument is a type
error. -/
def Annotations.init (fs : FileSystem) (v : InputValue)
    (annotation_type : String) (source_text_path : Option String) :
    Except MedErr Annotations :=
  match v with
  | .dict d => from_dict d
  | .otherValue => .error .TypeError
  | .path p =>
    match fs p with
    | none => .error .FileNotFoundError
    | some content =>
      if annotation_type = "ann" then from_ann content
      else if annotation_type = "con" then
        match source_text_path with
        | none => .error .FileNotFoundError
        | some sp =>
          match fs sp with
          | none => .error .FileNotFoundError
          | some src => from_con content src
      else .error .ValueError

/-! Well-formedness predicates describing exactly the fields that a
successful standoff parse can produce: fields live inside one
tab-separated chunk of one line, so labels carry no newline, tab or space,
and texts no newline or tab; entity offsets satisfy start < end. -/

/-- Characters a parsed label field can contain: no newline, no tab, no
space. -/
def labelCharsOk (cs : List Char) : Prop :=
  '\n' ∉ cs ∧ '\t' ∉ cs ∧ ' ' ∉ cs

/-- Characters a parsed text field can contain: no newline, no tab. -/
def textCharsOk (cs : List Char) : Prop :=
  '\n' ∉ cs ∧ '\t' ∉ cs

/-- An entity as the standoff parser can produce it. -/
def EntityOk (e : Entity) : Prop :=
  labelCharsOk e.label.data ∧ textCharsOk e.text.data ∧ e.start < e.«end»

/-- A relation as the standoff parser can produce it. -/
def RelationOk (r : Relation) : Prop :=
  labelCharsOk r.label.data

/-- A model every record of which the standoff parser can produce. -/
def ModelOk (M : Annotations) : Prop :=
  (∀ p ∈ M.entities, EntityOk p.2) ∧ (∀ p ∈ M.relations, RelationOk p.2)

/-- A decimal digit character. -/
abbrev isDigitChar (c : Char) : Prop := '0' ≤ c ∧ c ≤ '9'

/-- Replace the label component of an identity tuple, keeping span and
text. -/
def relabel (l : String) (t : EntTuple) : EntTuple :=
  (l, t.2.1, t.2.2.1, t.2.2.2)

/-- The number of entities of a model bearing a given label. -/
def labelCount (A : Annotations) (l : String) : Nat :=
  (get_entity_annotations A).countP (fun t => t.1 == l)

instance : Inhabited Entity := ⟨⟨"", 0, 0, ""⟩⟩

/-! Concrete models and files used to instantiate the theorems: the
two-entity model of the spec's concrete scenario and its one-entity
counterpart, same-span models for ambiguity, overlap-heavy models for the
confusion matrix, and small standoff files. -/

/-- The spec's concrete scenario model A: a Drug entity and a Dose
entity. -/
def exA : Annotations :=
  ⟨[(1, ⟨"Drug", 0, 5, "Aspi"⟩), (2, ⟨"Dose", 6, 10, "81mg"⟩)], [], none⟩

/-- The spec's concrete scenario model B: the Drug entity only. -/
def exB : Annotations :=
  ⟨[(7, ⟨"Drug", 0, 5, "Aspi"⟩)], [], none⟩

/-- A model that relabels the first entity of exA on an unchanged span,
as the ambiguity test does. -/
def exA_relabeled : Annotations :=
  ⟨[(1, ⟨"incorrect_label", 0, 5, "Aspi"⟩), (2, ⟨"Dose", 6, 10, "81mg"⟩)], [], none⟩

/-- A model with two entities sharing one span under different labels. -/
def amb_A : Annotations :=
  ⟨[(1, ⟨"X", 0, 1, "a"⟩), (2, ⟨"Y", 0, 1, "a"⟩)], [], none⟩

/-- amb_A with only the second label changed, span and text unchanged. -/
def amb_B : Annotations :=
  ⟨[(1, ⟨"X", 0, 1, "a"⟩), (2, ⟨"Z", 0, 1, "a"⟩)], [], none⟩

/-- Three same-label entities spanning the whole range zero to ten. -/
def cm_A : Annotations :=
  ⟨[(1, ⟨"X", 0, 10, "a"⟩), (2, ⟨"X", 0, 10, "b"⟩), (3, ⟨"X", 0, 10, "c"⟩)], [], none⟩

/-- Two entities of distinct labels splitting the range zero to ten. -/
def cm_B : Annotations :=
  ⟨[(1, ⟨"Y", 0, 5, "c"⟩), (2, ⟨"Z", 5, 10, "d"⟩)], [], none⟩

/-- A valid one-entity standoff file. -/
def exAnnContent : List Char := "T1\tDrug 0 4\tAspi".data

/-- The model the one-entity standoff file parses to. -/
def exM : Annotations := ⟨[(1, ⟨"Drug", 0, 4, "Aspi"⟩)], [], none⟩

/-- The content of the broken standoff file written by the test suite. -/
def brokenAnn : List Char := "This is clearly not a valid ann file".data

/-- A file system holding the given content at every path. -/
def fsConst (content : List Char) : FileSystem := fun _ => some content

/-- The empty file system. -/
def fsNone : FileSystem := fun _ => none

/-! Counting lemmas for compute_counts. -/

theorem bumpCount_lookup (m : List (String × Nat)) (l l2 : String) :
    (bumpCount m l).lookup l2 =
      if l2 = l then some (((m.lookup l2).getD 0) + 1) else m.lookup l2 := by
  induction m with
  | nil =>
    by_cases h : l2 = l
    · subst h
      simp [bumpCount, List.lookup]
    · have hf : (l2 == l) = false := by simp [h]
      simp [bumpCount, List.lookup, h, hf]
  | cons p m ih =>
    obtain ⟨k, n⟩ := p
    by_cases hk : k = l
    · subst hk
      by_cases h2 : l2 = k
      · subst h2
        simp [bumpCount, List.lookup]
      · have hf : (l2 == k) = false := by simp [h2]
        simp [bumpCount, List.lookup, h2, hf]
    · by_cases h2 : l2 = k
      · subst h2
        simp [bumpCount, List.lookup, hk]
      · have hf : (l2 == k) = false := by simp [h2]
        simp [bumpCount, List.lookup, hk, hf, ih]

theorem counts_foldl (ts : List EntTuple) :
    ∀ (m : List (String × Nat)) (l : String),
      ((ts.foldl (fun m t => bumpCount m t.1) m).lookup l) =
        if ts.countP (fun t => t.1 == l) = 0 then m.lookup l
        else some ((m.lookup l).getD 0 + ts.countP (fun t => t.1 == l)) := by
  induction ts with
  | nil => intro m l; simp
  | cons t ts ih =>
    intro m l
    rw [List.foldl_cons, ih, List.countP_cons, bumpCount_lookup]
    by_cases h : t.1 = l
    · have hb : (t.1 == l) = true := by simp [h]
      simp only [hb, if_true, if_pos h.symm]
      rcases Nat.eq_zero_or_pos (ts.countP (fun t => t.1 == l)) with h0 | h0
      · simp [h0]
      · have h1 : ts.countP (fun t => t.1 == l) ≠ 0 := by omega
        have h2 : ts.countP (fun t => t.1 == l) + 1 ≠ 0 := by omega
        simp only [if_neg h1, if_neg h2, Option.getD_some, Option.some.injEq]
        omega
    · have hb : (t.1 == l) = false := by simp [h]
      have hl : ¬ l = t.1 := fun hc => h hc.symm
      simp only [hb, Bool.false_eq_true, if_false, if_neg hl, Nat.add_zero]

/-! Claim C1. -/

/-- C1: difference returns the entities of A with no identical four-field
match in B, in the order of A; it is empty exactly when the entity set of
A is included in that of B, and in particular two models with identical
entity tuples (such as a model and an identically parsed copy) have an
empty difference. -/
theorem c1_difference_correct (A B : Annotations) :
    (difference A B).Sublist (get_entity_annotations A)
    ∧ (∀ t : EntTuple, t ∈ difference A B ↔
        t ∈ get_entity_annotations A ∧ t ∉ get_entity_annotations B)
    ∧ (difference A B = [] ↔
        ∀ t ∈ get_entity_annotations A, t ∈ get_entity_annotations B)
    ∧ (get_entity_annotations A = get_entity_annotations B → difference A B = []) := by
  refine ⟨List.filter_sublist _, fun t => ?_, ?_, ?_⟩
  · simp [difference, List.mem_filter]
  · simp [difference, List.filter_eq_nil_iff]
  · intro h
    simp [difference, h, List.filter_eq_nil_iff]

/-- C1 witness: the difference of the scenario model with itself is
empty. -/
theorem c1_witness : difference exA exA = [] :=
  (c1_difference_correct exA exA).2.2.2 rfl

/-! Claim C3. -/

/-- C3: intersection is the set of tuples present in both models under the
exact four-field identity; surrogate keys, relations and source text play
no role (models with equal tuple sequences have equal intersections), and
the intersection of a model with itself is its full entity set. -/
theorem c3_intersection_correct (A B : Annotations) :
    (∀ t : EntTuple, t ∈ intersection A B ↔
      t ∈ get_entity_annotations A ∧ t ∈ get_entity_annotations B)
    ∧ (∀ A2 B2 : Annotations,
        get_entity_annotations A2 = get_entity_annotations A →
        get_entity_annotations B2 = get_entity_annotations B →
        intersection A2 B2 = intersection A B)
    ∧ intersection A A = (get_entity_annotations A).toFinset := by
  refine ⟨fun t => ?_, fun A2 B2 h1 h2 => ?_, ?_⟩
  · simp [intersection]
  · simp [intersection, h1, h2]
  · simp [intersection]

/-- C3 witness: the Drug tuple lies in the intersection of the two
scenario models. -/
theorem c3_witness : ("Drug", 0, 5, "Aspi") ∈ intersection exA exB :=
  ((c3_intersection_correct exA exB).1 ("Drug", 0, 5, "Aspi")).mpr (by decide)

/-! Claim C8. -/

/-- C8: every comparison operation is a total function whose value ignores
the source texts of its operands entirely, so comparing models built from
unrelated documents returns a result and raises nothing on account of
differing source_text. -/
theorem c8_comparisons_ignore_source_text (A B : Annotations) (s t : Option String)
    (labels : List String) :
    difference { A with source_text := s } { B with source_text := t } = difference A B
    ∧ intersection { A with source_text := s } { B with source_text := t } = intersection A B
    ∧ compute_ambiguity { A with source_text := s } { B with source_text := t } =
        compute_ambiguity A B
    ∧ compute_confusion_matrix { A with source_text := s } { B with source_text := t } labels =
        compute_confusion_matrix A B labels
    ∧ compute_counts { A with source_text := s } = compute_counts A :=
  ⟨rfl, rfl, rfl, rfl, rfl⟩

/-! Claim C9. -/

/-- C9: compute_counts maps every label to the number of entities of the
model bearing it (labels never borne are absent), and on the spec's
concrete scenario model it yields Drug maps-to one, Dose maps-to one. -/
theorem c9_compute_counts_correct :
    (∀ (A : Annotations) (l : String),
      (compute_counts A).lookup l =
        if labelCount A l = 0 then none else some (labelCount A l))
    ∧ compute_counts exA = [("Drug", 1), ("Dose", 1)] := by
  constructor
  · intro A l
    rw [compute_counts, counts_foldl]
    simp [labelCount]
  · rfl

/-! Claim C10. -/

/-- C10: get_entity_annotations lists, in model order, 4-tuples whose
components are the label, start, end and text fields in that order; such a
tuple splatted into add_entity appends exactly that tuple to the model,
the appended tuple then participates in comparisons (it enters the
intersection with the model it came from), and the dictionary form holds
the same entities keyed by surrogate ID. -/
theorem c10_get_entity_annotations_correct :
    (∀ (A : Annotations) (i : Nat),
      (get_entity_annotations A)[i]? =
        (A.entities[i]?).map (fun p => (p.2.label, p.2.start, p.2.«end», p.2.text)))
    ∧ (∀ (A B : Annotations) (t : EntTuple), t ∈ get_entity_annotations B →
        get_entity_annotations (add_entity A t.1 t.2.1 t.2.2.1 t.2.2.2) =
          get_entity_annotations A ++ [t])
    ∧ (∀ (A B : Annotations) (t : EntTuple), t ∈ get_entity_annotations B →
        t ∈ intersection (add_entity A t.1 t.2.1 t.2.2.1 t.2.2.2) B)
    ∧ (∀ A : Annotations,
        (get_entity_annotations_dict A).map (fun p => p.2.tuple) =
          get_entity_annotations A) := by
  refine ⟨fun A i => ?_, fun A B t ht => ?_, fun A B t ht => ?_, fun A => rfl⟩
  · rw [get_entity_annotations, List.getElem?_map]
    rfl
  · simp [add_entity, get_entity_annotations, Entity.tuple]
  · have hmem : t ∈ get_entity_annotations (add_entity A t.1 t.2.1 t.2.2.1 t.2.2.2) := by
      simp [add_entity, get_entity_annotations, Entity.tuple]
    simp only [intersection, Finset.mem_inter, List.mem_toFinset]
    exact ⟨hmem, ht⟩

/-- C10 witness: splatting the Drug tuple of the one-entity scenario model
into add_entity appends exactly that tuple. -/
theorem c10_witness :
    get_entity_annotations (add_entity exA "Drug" 0 5 "Aspi") =
      get_entity_annotations exA ++ [("Drug", 0, 5, "Aspi")] :=
  c10_get_entity_annotations_correct.2.1 exA exB ("Drug", 0, 5, "Aspi") (by decide)

/-! Lemmas for compute_ambiguity: filtering a list in which exactly one
index satisfies the predicate, and span distinctness through indices. -/

theorem filter_eq_singleton_of_unique {α : Type} (da : α) (p : α → Bool) :
    ∀ (l : List α) (k : Nat), k < l.length → p (l.getD k da) = true →
      (∀ j, j < l.length → j ≠ k → p (l.getD j da) = false) →
      l.filter p = [l.getD k da] := by
  intro l
  induction l with
  | nil => intro k hk; simp at hk
  | cons x xs ih =>
    intro k hk hpk hothers
    cases k with
    | zero =>
      rw [List.getD_cons_zero] at hpk ⊢
      have hrest : xs.filter p = [] := by
        rw [List.filter_eq_nil_iff]
        intro a ha
        obtain ⟨j, hj, rfl⟩ := List.mem_iff_getElem.mp ha
        have hcall := hothers (j + 1) (by simpa using Nat.succ_lt_succ hj) (by omega)
        rw [List.getD_cons_succ, List.getD_eq_getElem xs da hj] at hcall
        simp [hcall]
      rw [List.filter_cons_of_pos hpk, hrest]
    | succ k2 =>
      have hx : p x = false := by
        have hcall := hothers 0 (by omega) (by omega)
        rwa [List.getD_cons_zero] at hcall
      rw [List.getD_cons_succ] at hpk ⊢
      rw [List.filter_cons_of_neg (by simp [hx])]
      refine ih k2 (by simpa using Nat.lt_of_succ_lt_succ hk) hpk ?_
      intro j hj hne
      have hcall := hothers (j + 1) (by simpa using Nat.succ_lt_succ hj) (by omega)
      rwa [List.getD_cons_succ] at hcall

theorem pairwise_getD {α : Type} {R : α → α → Prop} (da : α)
    (hsym : ∀ a b, R a b → R b a) {l : List α} (h : l.Pairwise R) :
    ∀ i j, i < l.length → j < l.length → i ≠ j →
      R (l.getD i da) (l.getD j da) := by
  have H := List.pairwise_iff_get.mp h
  intro i j hi hj hne
  rw [List.getD_eq_getElem l da hi, List.getD_eq_getElem l da hj]
  rcases Nat.lt_or_ge i j with hlt | hge
  · exact H ⟨i, hi⟩ ⟨j, hj⟩ hlt
  · have hlt : j < i := by omega
    exact hsym _ _ (H ⟨j, hj⟩ ⟨i, hi⟩ hlt)

/-- Span distinctness is a symmetric relation on tuples. -/
theorem spanNe_symm : ∀ t u : EntTuple,
    (t.2.1 ≠ u.2.1 ∨ t.2.2.1 ≠ u.2.2.1) → (u.2.1 ≠ t.2.1 ∨ u.2.2.1 ≠ t.2.2.1) := by
  intro t u h
  rcases h with h | h
  · exact Or.inl (Ne.symm h)
  · exact Or.inr (Ne.symm h)

/-- Core of the one-relabel scenario at the list level: filtering a
span-distinct tuple list for ambiguity against itself with exactly index k
relabeled keeps exactly the tuple at index k. -/
theorem ambiguity_filter_single (l : List EntTuple) (k : Nat)
    (hk : k < l.length) (newLab : String)
    (hnew : newLab ≠ (l.getD k default).1)
    (hsp : l.Pairwise (fun t u => t.2.1 ≠ u.2.1 ∨ t.2.2.1 ≠ u.2.2.1)) :
    l.filter (fun t => (l.set k (relabel newLab (l.getD k default))).any
        (fun u => t.2.1 == u.2.1 && t.2.2.1 == u.2.2.1 && t.1 != u.1)) =
      [l.getD k default] := by
  apply filter_eq_singleton_of_unique default _ l k hk
  · -- the relabeled tuple witnesses the ambiguity of the entity at index k
    rw [List.any_eq_true]
    refine ⟨relabel newLab (l.getD k default), List.mem_set l k hk _, ?_⟩
    dsimp only [relabel]
    simp only [beq_self_eq_true, Bool.true_and, bne_iff_ne, ne_eq]
    exact Ne.symm hnew
  · intro j hj hne
    rw [List.any_eq_false]
    intro u hu
    obtain ⟨m, hm, hum⟩ := List.mem_iff_getElem.mp hu
    have hml : m < l.length := by simpa [List.length_set] using hm
    by_cases hmk : m = k
    · -- the relabeled tuple: its span is the span of index k, distinct from
      -- the span at index j
      subst hmk
      rw [List.getElem_set_self hm] at hum
      subst hum
      have hR := pairwise_getD default spanNe_symm hsp j m hj hml hne
      dsimp only [relabel]
      simp only [Bool.and_eq_true, beq_iff_eq, bne_iff_ne, ne_eq, not_and,
        not_not]
      rcases hR with h | h
      · exact fun hc => absurd hc.1 h
      · exact fun hc => absurd hc.2 h
    · -- an untouched tuple of A: same index means same label, distinct index
      -- means distinct span
      rw [List.getElem_set hm, if_neg (fun hc => hmk hc.symm)] at hum
      have hu2 : u = l.getD m default := by
        rw [List.getD_eq_getElem l default hml, hum]
      subst hu2
      by_cases hmj : m = j
      · subst hmj
        simp
      · have hR := pairwise_getD default spanNe_symm hsp j m hj hml
          (fun hc => hmj hc.symm)
        simp only [Bool.and_eq_true, beq_iff_eq, bne_iff_ne, ne_eq, not_and,
          not_not]
        rcases hR with h | h
        · exact fun hc => absurd hc.1 h
        · exact fun hc => absurd hc.2 h

/-- If B agrees with A except that the entity at one index carries a new
label on an unchanged span, and no two entities of A share a span, the
ambiguity of A against B is exactly the entity of A at that index. -/
theorem ambiguity_single_relabel (A B : Annotations) (k : Nat)
    (hk : k < (get_entity_annotations A).length) (newLab : String)
    (hB : get_entity_annotations B =
      (get_entity_annotations A).set k
        (relabel newLab ((get_entity_annotations A).getD k default)))
    (hnew : newLab ≠ ((get_entity_annotations A).getD k default).1)
    (hsp : (get_entity_annotations A).Pairwise
      (fun t u => t.2.1 ≠ u.2.1 ∨ t.2.2.1 ≠ u.2.2.1)) :
    compute_ambiguity A B = [(get_entity_annotations A).getD k default] := by
  rw [compute_ambiguity, hB]
  exact ambiguity_filter_single (get_entity_annotations A) k hk newLab hnew hsp

/-! Claim C4: the membership characterization holds, but the
one-relabel scenario yields exactly one entity only when no two entities
of A share a span; amb_A and amb_B refute the unconditional claim. -/

/-- C4 counterexample: amb_B is amb_A with only its second label changed
on an unchanged span, yet the ambiguity result is not exactly that one
entity — the other same-span entity of amb_A enters it too. -/
theorem c4_compute_ambiguity_cex :
    amb_B.entities = amb_A.entities.set 1 (2, ⟨"Z", 0, 1, "a"⟩)
    ∧ ("X", 0, 1, "a") ∈ compute_ambiguity amb_A amb_B
    ∧ compute_ambiguity amb_A amb_B ≠ [("Y", 0, 1, "a")]
    ∧ (compute_ambiguity amb_A amb_B).length = 2 := by decide

/-- C4 amended: an entity of A is in compute_ambiguity A B exactly when
some entity of B has the same span and a different label; and when no two
entities of A share a span, relabeling exactly one entity of B on an
unchanged span makes the result exactly that entity of A. -/
theorem c4_compute_ambiguity_amended :
    (∀ (A B : Annotations) (t : EntTuple),
      t ∈ compute_ambiguity A B ↔
        t ∈ get_entity_annotations A ∧
          ∃ u ∈ get_entity_annotations B,
            t.2.1 = u.2.1 ∧ t.2.2.1 = u.2.2.1 ∧ t.1 ≠ u.1)
    ∧ (∀ (A B : Annotations) (k : Nat),
        k < (get_entity_annotations A).length →
        ∀ newLab : String,
        get_entity_annotations B =
          (get_entity_annotations A).set k
            (relabel newLab ((get_entity_annotations A).getD k default)) →
        newLab ≠ ((get_entity_annotations A).getD k default).1 →
        (get_entity_annotations A).Pairwise
          (fun t u => t.2.1 ≠ u.2.1 ∨ t.2.2.1 ≠ u.2.2.1) →
        compute_ambiguity A B = [(get_entity_annotations A).getD k default]) := by
  constructor
  · intro A B t
    simp [compute_ambiguity, List.mem_filter, List.any_eq_true, bne_iff_ne,
      and_assoc]
  · intro A B k hk newLab hB hnew hsp
    exact ambiguity_single_relabel A B k hk newLab hB hnew hsp

/-- C4 witness: relabeling the first entity of the scenario model on its
unchanged span makes the ambiguity exactly that entity. -/
theorem c4_witness :
    compute_ambiguity exA exA_relabeled = [("Drug", 0, 5, "Aspi")] :=
  c4_compute_ambiguity_amended.2 exA exA_relabeled 0 (by decide)
    "incorrect_label" (by decide) (by decide) (by decide)

/-! Summation lemmas for the confusion matrix. -/

theorem sum_map_add {α : Type} (l : List α) (f g : α → Nat) :
    (l.map (fun x => f x + g x)).sum = (l.map f).sum + (l.map g).sum := by
  induction l with
  | nil => rfl
  | cons x l ih =>
    simp only [List.map_cons, List.sum_cons, ih]
    omega

theorem sum_map_zero {α : Type} (l : List α) :
    (l.map (fun _ => (0 : Nat))).sum = 0 := by
  induction l with
  | nil => rfl
  | cons x l ih => simp [ih]

theorem sum_indicator_not_mem (x : String) (ls : List String) (h : x ∉ ls) :
    (ls.map (fun li => if x = li then (1 : Nat) else 0)).sum = 0 := by
  induction ls with
  | nil => rfl
  | cons a ls ih =>
    have hx : x ≠ a := fun hc => h (hc ▸ List.mem_cons_self a ls)
    have h2 : x ∉ ls := fun hc => h (List.mem_cons_of_mem a hc)
    simp [hx, ih h2]

theorem sum_indicator_nodup (x : String) (labels : List String)
    (h : labels.Nodup) :
    (labels.map (fun li => if x = li then (1 : Nat) else 0)).sum =
      if x ∈ labels then 1 else 0 := by
  induction labels with
  | nil => rfl
  | cons a ls ih =>
    obtain ⟨ha, hnd⟩ := List.nodup_cons.mp h
    by_cases hx : x = a
    · subst hx
      simp [sum_indicator_not_mem x ls ha]
    · simp [hx, ih hnd]

/-- Summed over duplicate-free row labels, each entity of the tuple list is
counted at most once per column, whatever the per-tuple side condition. -/
theorem column_sum_le_aux (labels : List String) (hnd : labels.Nodup)
    (q : EntTuple → Bool) (ts : List EntTuple) :
    (labels.map (fun li => ts.countP (fun t => t.1 == li && q t))).sum ≤
      ts.countP (fun t => decide (t.1 ∈ labels)) := by
  induction ts with
  | nil => simp
  | cons t ts ih =>
    simp only [List.countP_cons]
    rw [sum_map_add]
    refine Nat.add_le_add ih ?_
    cases hq : q t with
    | false =>
      have hz : (labels.map (fun li =>
          if (t.1 == li && false) = true then (1 : Nat) else 0)) =
          labels.map (fun _ => (0 : Nat)) := by
        apply List.map_congr_left
        intro li _
        simp
      rw [hz, sum_map_zero]
      exact Nat.zero_le _
    | true =>
      have hrw : (labels.map (fun li =>
          if (t.1 == li && true) = true then (1 : Nat) else 0)) =
          labels.map (fun li => if t.1 = li then (1 : Nat) else 0) := by
        apply List.map_congr_left
        intro li _
        simp [beq_iff_eq]
      rw [hrw, sum_indicator_nodup _ _ hnd]
      by_cases hm : t.1 ∈ labels <;> simp [hm]

/-- Read an index below the length through a map with any defaults. -/
theorem getD_map_of_lt {α β : Type} (f : α → β) (l : List α) (i : Nat)
    (hi : i < l.length) (d : β) (d2 : α) :
    (l.map f).getD i d = f (l.getD i d2) := by
  have h2 : i < (l.map f).length := by simpa using hi
  rw [List.getD_eq_getElem _ _ h2, List.getD_eq_getElem _ _ hi]
  exact List.getElem_map f

/-- The matrix cell counts exactly the entities of A with the row label
whose span intersects the span of some entity of B with the column
label. -/
theorem confusion_cell_eq (A B : Annotations) (li lj : String) :
    confusion_cell A B li lj =
      (get_entity_annotations A).countP (fun t =>
        decide (t.1 = li ∧ ∃ u ∈ get_entity_annotations B,
          u.1 = lj ∧ max t.2.1 u.2.1 < min t.2.2.1 u.2.2.1)) := by
  apply List.countP_congr
  intro t _
  simp [spanOverlapB, List.any_eq_true, beq_iff_eq, Bool.and_eq_true,
    decide_eq_true_eq]

/-! Claim C5: the dimension, zero-fill and overlap-cell statements hold,
but the row and column sums are not bounded by the label-bearing entity
counts of A and B; cm_A and cm_B refute both bounds at once, and the
bound that does hold ties every column sum to the count in A. -/

/-- C5 counterexample: with three same-label entities of A overlapping
both entities of B, the first row sums to six though A bears only three
entities with supplied labels, and the second column sums to three though
B bears only two. -/
theorem c5_confusion_matrix_cex :
    ¬ (((compute_confusion_matrix cm_A cm_B ["X", "Y", "Z"]).getD 0 []).sum ≤
        (get_entity_annotations cm_A).countP
          (fun t => decide (t.1 ∈ ["X", "Y", "Z"])))
    ∧ ¬ (((compute_confusion_matrix cm_A cm_B ["X", "Y", "Z"]).map
          (fun row => row.getD 1 0)).sum ≤
        (get_entity_annotations cm_B).countP
          (fun t => decide (t.1 ∈ ["X", "Y", "Z"]))) := by
  decide

/-- C5 amended: the matrix is always len-labels by len-labels and
zero-filled on row labels absent from A, cell (i, j) counts the entities
of A labeled labels i whose half-open span intersects the span of some
entity of B labeled labels j, and for duplicate-free labels every column
sum is bounded by the number of entities of A bearing labels in labels
(row and column sums are not in general bounded by the counts of A and B
respectively). -/
theorem c5_confusion_matrix_amended (A B : Annotations) (labels : List String) :
    (compute_confusion_matrix A B labels).length = labels.length
    ∧ (∀ row ∈ compute_confusion_matrix A B labels, row.length = labels.length)
    ∧ (∀ i j, i < labels.length → j < labels.length →
        ((compute_confusion_matrix A B labels).getD i []).getD j 0 =
          (get_entity_annotations A).countP (fun t =>
            decide (t.1 = labels.getD i "" ∧ ∃ u ∈ get_entity_annotations B,
              u.1 = labels.getD j "" ∧ max t.2.1 u.2.1 < min t.2.2.1 u.2.2.1)))
    ∧ (∀ i, i < labels.length →
        labels.getD i "" ∉ (get_entity_annotations A).map (fun t => t.1) →
        ∀ j, j < labels.length →
          ((compute_confusion_matrix A B labels).getD i []).getD j 0 = 0)
    ∧ (labels.Nodup → ∀ lj : String,
        (labels.map (fun li => confusion_cell A B li lj)).sum ≤
          (get_entity_annotations A).countP (fun t => decide (t.1 ∈ labels))) := by
  refine ⟨by simp [compute_confusion_matrix], ?_, ?_, ?_, ?_⟩
  · intro row hrow
    obtain ⟨li, _, rfl⟩ := List.mem_map.mp hrow
    simp
  · intro i j hi hj
    rw [compute_confusion_matrix, getD_map_of_lt _ labels i hi _ "",
      getD_map_of_lt _ labels j hj _ ""]
    exact confusion_cell_eq A B _ _
  · intro i hi hnotin j hj
    rw [compute_confusion_matrix, getD_map_of_lt _ labels i hi _ "",
      getD_map_of_lt _ labels j hj _ ""]
    rw [confusion_cell]
    apply List.countP_eq_zero.mpr
    intro t ht hc
    have h1 : t.1 = labels.getD i "" := by
      have := (Bool.and_eq_true _ _).mp hc
      exact beq_iff_eq.mp this.1
    exact hnotin (List.mem_map.mpr ⟨t, ht, h1⟩)
  · intro hnd lj
    exact column_sum_le_aux labels hnd _ (get_entity_annotations A)

/-- C5 witness: on the overlap-heavy models the second column sum is
indeed bounded by the label-bearing count of the first model. -/
theorem c5_witness :
    (["X", "Y", "Z"].map (fun li => confusion_cell cm_A cm_B li "Y")).sum ≤
      (get_entity_annotations cm_A).countP
        (fun t => decide (t.1 ∈ ["X", "Y", "Z"])) :=
  (c5_confusion_matrix_amended cm_A cm_B ["X", "Y", "Z"]).2.2.2.2 (by decide) "Y"

/-! Claim C6: the construction error surface. -/

/-- C6: the empty dictionary raises the invalid-format error under any
format tag, a non-dictionary non-string argument raises the type error, a
path absent from the file system raises the not-found error whatever the
format tag — before any content could be parsed — and the broken standoff
file of the test suite raises the invalid-format error. -/
theorem c6_constructor_errors :
    (∀ (fs : FileSystem) (tag : String) (sp : Option String),
      Annotations.init fs (.dict emptyDict) tag sp =
        .error .InvalidAnnotationError)
    ∧ (∀ (fs : FileSystem) (tag : String) (sp : Option String),
      Annotations.init fs .otherValue tag sp = .error .TypeError)
    ∧ (∀ (fs : FileSystem) (p : String) (tag : String) (sp : Option String),
      fs p = none →
      Annotations.init fs (.path p) tag sp = .error .FileNotFoundError)
    ∧ (∀ (fs : FileSystem) (p : String) (sp : Option String),
      fs p = some brokenAnn →
      Annotations.init fs (.path p) "ann" sp =
        .error .InvalidAnnotationError) := by
  refine ⟨fun fs tag sp => rfl, fun fs tag sp => rfl, ?_, ?_⟩
  · intro fs p tag sp h
    rw [Annotations.init, h]
  · intro fs p sp h
    rw [Annotations.init, h]
    have : from_ann brokenAnn = .error .InvalidAnnotationError := by decide
    simpa using this

/-- C6 witness: on a file system holding the broken file everywhere, the
constructor raises the invalid-format error. -/
theorem c6_witness :
    Annotations.init (fsConst brokenAnn) (.path "broken_ann_file.ann")
      "ann" none = .error .InvalidAnnotationError :=
  c6_constructor_errors.2.2.2 (fsConst brokenAnn) "broken_ann_file.ann"
    none rfl

/-! Claim C7: the con-format error surface. -/

/-- C7: with the annotation file present, a missing source-text path or a
source-text path absent from the file system raises the not-found error;
con content whose bracket syntax does not parse raises the invalid-format
error, as does a con line whose token position does not resolve against
the source text. -/
theorem c7_con_errors :
    (∀ (fs : FileSystem) (p : String) (content : List Char),
      fs p = some content →
      Annotations.init fs (.path p) "con" none = .error .FileNotFoundError)
    ∧ (∀ (fs : FileSystem) (p sp : String) (content : List Char),
      fs p = some content → fs sp = none →
      Annotations.init fs (.path p) "con" (some sp) =
        .error .FileNotFoundError)
    ∧ from_con ("This string wishes it was a valid con file.".data)
        ("It does not matter what is in this file as long as it exists.".data) =
        .error .InvalidAnnotationError
    ∧ from_con ("c=\"test\" 99:0 99:0||t=\"problem\"".data)
        ("hello world".data) = .error .InvalidAnnotationError := by
  refine ⟨?_, ?_, by decide, by decide⟩
  · intro fs p content h
    rw [Annotations.init, h]
    rfl
  · intro fs p sp content h hsp
    rw [Annotations.init, h]
    simp [hsp]

/-- C7 witness: a file system holding only the con file, with no source
text anywhere, makes construction raise the not-found error. -/
theorem c7_witness :
    Annotations.init
      (fsConst ("c=\"hello\" 1:0 1:0||t=\"greeting\"".data))
      (.path "test_con.con") "con" none = .error .FileNotFoundError :=
  c7_con_errors.1 (fsConst ("c=\"hello\" 1:0 1:0||t=\"greeting\"".data))
    "test_con.con" _ rfl

/-! Decimal rendering and reading invert each other; rendered digits are
digit characters, so they avoid every delimiter. -/

theorem digitVal_digitChar {d : Nat} (h : d < 10) :
    digitVal? (Nat.digitChar d) = some d := by
  interval_cases d <;> decide

theorem isDigitChar_digitChar {d : Nat} (h : d < 10) :
    isDigitChar (Nat.digitChar d) := by
  interval_cases d <;> decide

theorem isDigitChar_mem_natCharsAux {c : Char} :
    ∀ {fuel n : Nat}, c ∈ natCharsAux fuel n → isDigitChar c := by
  intro fuel
  induction fuel with
  | zero => intro n h; simp [natCharsAux] at h
  | succ f ih =>
    intro n h
    cases n with
    | zero => simp [natCharsAux] at h
    | succ m =>
      rw [natCharsAux] at h
      rcases List.mem_append.mp h with h1 | h2
      · exact ih h1
      · have hc : c = Nat.digitChar ((m + 1) % 10) := by simpa using h2
        subst hc
        exact isDigitChar_digitChar (Nat.mod_lt _ (by norm_num))

theorem isDigitChar_mem_natChars {c : Char} {n : Nat} (h : c ∈ natChars n) :
    isDigitChar c := by
  rw [natChars] at h
  split at h
  · have hc : c = '0' := by simpa using h
    subst hc
    decide
  · exact isDigitChar_mem_natCharsAux h

theorem isDigitChar_ne {c : Char} (h : isDigitChar c) :
    c ≠ '\n' ∧ c ≠ '\t' ∧ c ≠ ' ' := by
  refine ⟨fun hc => ?_, fun hc => ?_, fun hc => ?_⟩ <;>
    (subst hc; exact absurd h.1 (by decide))

theorem charsNatAux_append (xs ys : List Char) (acc : Nat) :
    charsNatAux (xs ++ ys) acc =
      match charsNatAux xs acc with
      | some m => charsNatAux ys m
      | none => none := by
  induction xs generalizing acc with
  | nil => simp [charsNatAux]
  | cons c xs ih =>
    rw [List.cons_append]
    cases h : digitVal? c with
    | some d => simp [charsNatAux, h, ih]
    | none => simp [charsNatAux, h]

theorem charsNatAux_natCharsAux :
    ∀ (fuel n : Nat), n < fuel → ∀ acc,
      charsNatAux (natCharsAux fuel n) acc =
        some (acc * 10 ^ (natCharsAux fuel n).length + n) := by
  intro fuel
  induction fuel with
  | zero => intro n h; omega
  | succ f ih =>
    intro n hn acc
    cases n with
    | zero => simp [natCharsAux, charsNatAux]
    | succ m =>
      rw [natCharsAux, charsNatAux_append]
      have hq : (m + 1) / 10 < f := by
        have h1 : (m + 1) / 10 < m + 1 := Nat.div_lt_self (by omega) (by norm_num)
        omega
      rw [ih _ hq acc]
      have hd : digitVal? (Nat.digitChar ((m + 1) % 10)) = some ((m + 1) % 10) :=
        digitVal_digitChar (Nat.mod_lt _ (by norm_num))
      simp only [charsNatAux, hd]
      rw [List.length_append]
      congr 1
      have hdm : 10 * ((m + 1) / 10) + (m + 1) % 10 = m + 1 := by omega
      rw [List.length_singleton, pow_succ]
      set X := 10 ^ (natCharsAux f ((m + 1) / 10)).length with hX
      have hexp : 10 * (acc * X + (m + 1) / 10) + (m + 1) % 10 =
          acc * (X * 10) + (10 * ((m + 1) / 10) + (m + 1) % 10) := by ring
      rw [hexp, hdm]

theorem natCharsAux_ne_nil {f m : Nat} : natCharsAux (f + 1) (m + 1) ≠ [] := by
  rw [natCharsAux]
  simp

theorem charsNat?_of_ne_nil (cs : List Char) (h : cs ≠ []) :
    charsNat? cs = charsNatAux cs 0 := by
  cases cs with
  | nil => exact absurd rfl h
  | cons c cs => rfl

theorem charsNat_natChars (n : Nat) : charsNat? (natChars n) = some n := by
  rcases Nat.eq_zero_or_pos n with h | h
  · subst h
    decide
  · rw [natChars, if_neg (by omega)]
    obtain ⟨m, rfl⟩ : ∃ m, n = m + 1 := ⟨n - 1, by omega⟩
    rw [charsNat?_of_ne_nil _ natCharsAux_ne_nil,
      charsNatAux_natCharsAux _ _ (by omega) 0]
    simp

/-! Splitting on a separator inverts joining separator-free chunks. -/

theorem splitOnChar_ne_nil (sep : Char) (cs : List Char) :
    splitOnChar sep cs ≠ [] := by
  induction cs with
  | nil => simp [splitOnChar]
  | cons c cs ih =>
    rw [splitOnChar]
    by_cases h : c = sep
    · simp [h]
    · simp only [if_neg h]
      cases hs : splitOnChar sep cs with
      | nil => simp
      | cons l ls => simp

theorem splitOnChar_not_mem (sep : Char) (cs : List Char) (h : sep ∉ cs) :
    splitOnChar sep cs = [cs] := by
  induction cs with
  | nil => rfl
  | cons c cs ih =>
    have hc : c ≠ sep := fun hc => h (hc ▸ List.mem_cons_self c cs)
    have h2 : sep ∉ cs := fun hm => h (List.mem_cons_of_mem c hm)
    rw [splitOnChar, if_neg hc, ih h2]

theorem splitOnChar_append (sep : Char) (a b : List Char) (h : sep ∉ a) :
    splitOnChar sep (a ++ sep :: b) = a :: splitOnChar sep b := by
  induction a with
  | nil => simp [splitOnChar]
  | cons c a ih =>
    have hc : c ≠ sep := fun hc => h (hc ▸ List.mem_cons_self c a)
    have h2 : sep ∉ a := fun hm => h (List.mem_cons_of_mem c hm)
    rw [List.cons_append, splitOnChar, if_neg hc, ih h2]

theorem not_mem_of_mem_splitOnChar (sep : Char) :
    ∀ (cs l : List Char), l ∈ splitOnChar sep cs → sep ∉ l := by
  intro cs
  induction cs with
  | nil =>
    intro l h
    simp only [splitOnChar, List.mem_singleton] at h
    subst h
    simp
  | cons c cs ih =>
    intro l h
    rw [splitOnChar] at h
    by_cases hc : c = sep
    · rw [if_pos hc] at h
      rcases List.mem_cons.mp h with rfl | h2
      · simp
      · exact ih l h2
    · rw [if_neg hc] at h
      cases hs : splitOnChar sep cs with
      | nil => exact absurd hs (splitOnChar_ne_nil sep cs)
      | cons x ls =>
        rw [hs] at h
        rcases List.mem_cons.mp h with rfl | h2
        · intro hm
          rcases List.mem_cons.mp hm with hsc | hm2
          · exact hc hsc.symm
          · exact ih x (hs ▸ List.mem_cons_self x ls) hm2
        · exact ih l (hs ▸ List.mem_cons_of_mem x h2)

theorem mem_of_mem_splitOnChar (sep : Char) :
    ∀ (cs l : List Char) (x : Char),
      l ∈ splitOnChar sep cs → x ∈ l → x ∈ cs := by
  intro cs
  induction cs with
  | nil =>
    intro l x h hx
    simp only [splitOnChar, List.mem_singleton] at h
    subst h
    simp at hx
  | cons c cs ih =>
    intro l x h hx
    rw [splitOnChar] at h
    by_cases hc : c = sep
    · rw [if_pos hc] at h
      rcases List.mem_cons.mp h with rfl | h2
      · simp at hx
      · exact List.mem_cons_of_mem c (ih l x h2 hx)
    · rw [if_neg hc] at h
      cases hs : splitOnChar sep cs with
      | nil => exact absurd hs (splitOnChar_ne_nil sep cs)
      | cons y ls =>
        rw [hs] at h
        rcases List.mem_cons.mp h with rfl | h2
        · rcases List.mem_cons.mp hx with rfl | hx2
          · simp
          · exact List.mem_cons_of_mem c
              (ih y x (hs ▸ List.mem_cons_self y ls) hx2)
        · exact List.mem_cons_of_mem c
            (ih l x (hs ▸ List.mem_cons_of_mem y h2) hx)

theorem splitOnChar_joinWithChar (sep : Char) :
    ∀ ls : List (List Char), ls ≠ [] → (∀ l ∈ ls, sep ∉ l) →
      splitOnChar sep (joinWithChar sep ls) = ls := by
  intro ls
  induction ls with
  | nil => intro h; exact absurd rfl h
  | cons l ls ih =>
    intro _ hall
    cases ls with
    | nil =>
      show splitOnChar sep l = [l]
      exact splitOnChar_not_mem sep l (hall l (List.mem_cons_self l []))
    | cons l2 ls2 =>
      have h1 : sep ∉ l := hall l (List.mem_cons_self _ _)
      have h2 : ∀ m ∈ l2 :: ls2, sep ∉ m :=
        fun m hm => hall m (List.mem_cons_of_mem _ hm)
      show splitOnChar sep (l ++ sep :: joinWithChar sep (l2 :: ls2)) =
        l :: l2 :: ls2
      rw [splitOnChar_append sep l _ h1, ih (by simp) h2]

/-! Serialized standoff lines parse back to the records they came from. -/

theorem tab_not_mem_natChars {n : Nat} : '\t' ∉ natChars n :=
  fun hm => (isDigitChar_ne (isDigitChar_mem_natChars hm)).2.1 rfl

theorem space_not_mem_natChars {n : Nat} : ' ' ∉ natChars n :=
  fun hm => (isDigitChar_ne (isDigitChar_mem_natChars hm)).2.2 rfl

theorem nl_not_mem_natChars {n : Nat} : '\n' ∉ natChars n :=
  fun hm => (isDigitChar_ne (isDigitChar_mem_natChars hm)).1 rfl

theorem parseEntityBody_roundtrip (k : Nat) (e : Entity) (h : EntityOk e) :
    parseEntityBody (natChars k ++ '\t' ::
      ((e.label.data ++ ' ' :: (natChars e.start ++ ' ' :: natChars e.«end»)) ++
        '\t' :: e.text.data)) = some (k, e) := by
  obtain ⟨⟨hl1, hl2, hl3⟩, ⟨ht1, ht2⟩, hse⟩ := h
  have hmid : '\t' ∉
      (e.label.data ++ ' ' :: (natChars e.start ++ ' ' :: natChars e.«end»)) := by
    intro hm
    rcases List.mem_append.mp hm with hm | hm
    · exact hl2 hm
    rcases List.mem_cons.mp hm with hm | hm
    · exact absurd hm (by decide)
    rcases List.mem_append.mp hm with hm | hm
    · exact tab_not_mem_natChars hm
    rcases List.mem_cons.mp hm with hm | hm
    · exact absurd hm (by decide)
    · exact tab_not_mem_natChars hm
  have hsp : splitOnChar ' '
      (e.label.data ++ ' ' :: (natChars e.start ++ ' ' :: natChars e.«end»)) =
      [e.label.data, natChars e.start, natChars e.«end»] := by
    rw [splitOnChar_append _ _ _ hl3,
      splitOnChar_append _ _ _ space_not_mem_natChars,
      splitOnChar_not_mem _ _ space_not_mem_natChars]
  simp only [parseEntityBody,
    splitOnChar_append _ _ _ tab_not_mem_natChars,
    splitOnChar_append _ _ _ hmid,
    splitOnChar_not_mem _ _ ht2, hsp, charsNat_natChars, if_pos hse]

theorem parseRelBody_roundtrip (k : Nat) (r : Relation) (h : RelationOk r) :
    parseRelBody (natChars k ++ '\t' :: (r.label.data ++
      ' ' :: (('T' :: natChars r.entity_1) ++
        ' ' :: ('T' :: natChars r.entity_2)))) = some (k, r) := by
  obtain ⟨hl1, hl2, hl3⟩ := h
  have hmid : '\t' ∉ (r.label.data ++
      ' ' :: (('T' :: natChars r.entity_1) ++
        ' ' :: ('T' :: natChars r.entity_2))) := by
    intro hm
    rcases List.mem_append.mp hm with hm | hm
    · exact hl2 hm
    rcases List.mem_cons.mp hm with hm | hm
    · exact absurd hm (by decide)
    rcases List.mem_append.mp hm with hm | hm
    · rcases List.mem_cons.mp hm with hm | hm
      · exact absurd hm (by decide)
      · exact tab_not_mem_natChars hm
    rcases List.mem_cons.mp hm with hm | hm
    · exact absurd hm (by decide)
    rcases List.mem_cons.mp hm with hm | hm
    · exact absurd hm (by decide)
    · exact tab_not_mem_natChars hm
  have hsp1 : ' ' ∉ 'T' :: natChars r.entity_1 := by
    intro hm
    rcases List.mem_cons.mp hm with hm | hm
    · exact absurd hm (by decide)
    · exact space_not_mem_natChars hm
  have hsp2 : ' ' ∉ 'T' :: natChars r.entity_2 := by
    intro hm
    rcases List.mem_cons.mp hm with hm | hm
    · exact absurd hm (by decide)
    · exact space_not_mem_natChars hm
  have hsp : splitOnChar ' ' (r.label.data ++
      ' ' :: (('T' :: natChars r.entity_1) ++
        ' ' :: ('T' :: natChars r.entity_2))) =
      [r.label.data, 'T' :: natChars r.entity_1, 'T' :: natChars r.entity_2] := by
    rw [splitOnChar_append _ _ _ hl3, splitOnChar_append _ _ _ hsp1,
      splitOnChar_not_mem _ _ hsp2]
  simp only [parseRelBody,
    splitOnChar_append _ _ _ tab_not_mem_natChars,
    splitOnChar_not_mem _ _ hmid, hsp, charsNat_natChars]

theorem parseAnnLine_entityLine (k : Nat) (e : Entity) (h : EntityOk e) :
    parseAnnLine (entityLine k e) = some (.ent k e) := by
  simp only [entityLine, parseAnnLine]
  rw [if_pos trivial, parseEntityBody_roundtrip k e h]
  rfl

theorem parseAnnLine_relationLine (k : Nat) (r : Relation) (h : RelationOk r) :
    parseAnnLine (relationLine k r) = some (.rel k r) := by
  simp only [relationLine, parseAnnLine]
  rw [if_pos trivial, parseRelBody_roundtrip k r h]
  rfl

/-! Whole files of serialized lines parse back to the serialized model. -/

theorem entityLine_ne_nil (k : Nat) (e : Entity) : entityLine k e ≠ [] := by
  rw [entityLine]
  simp

theorem relationLine_ne_nil (k : Nat) (r : Relation) : relationLine k r ≠ [] := by
  rw [relationLine]
  simp

theorem parseAnnLines_entLines (es : List (Nat × Entity))
    (hok : ∀ p ∈ es, EntityOk p.2) (ys : List (List Char)) :
    parseAnnLines ((es.map (fun p => entityLine p.1 p.2)) ++ ys) =
      match parseAnnLines ys with
      | .ok (es2, rs2) => .ok (es ++ es2, rs2)
      | .error err => .error err := by
  induction es with
  | nil =>
    simp only [List.map_nil, List.nil_append]
    cases h : parseAnnLines ys with
    | ok v =>
      obtain ⟨es2, rs2⟩ := v
      simp
    | error err => rfl
  | cons p es ih =>
    obtain ⟨k, e⟩ := p
    have hok1 : EntityOk e := hok (k, e) (List.mem_cons_self _ _)
    have hok2 : ∀ q ∈ es, EntityOk q.2 :=
      fun q hq => hok q (List.mem_cons_of_mem _ hq)
    simp only [List.map_cons, List.cons_append]
    rw [parseAnnLines, if_neg (entityLine_ne_nil k e),
      parseAnnLine_entityLine k e hok1, ih hok2]
    cases h : parseAnnLines ys with
    | ok v =>
      obtain ⟨es2, rs2⟩ := v
      simp
    | error err => rfl

theorem parseAnnLines_relLines (rs : List (Nat × Relation))
    (hok : ∀ p ∈ rs, RelationOk p.2) :
    parseAnnLines (rs.map (fun p => relationLine p.1 p.2)) = .ok ([], rs) := by
  induction rs with
  | nil => rfl
  | cons p rs ih =>
    obtain ⟨k, r⟩ := p
    have hok1 : RelationOk r := hok (k, r) (List.mem_cons_self _ _)
    have hok2 : ∀ q ∈ rs, RelationOk q.2 :=
      fun q hq => hok q (List.mem_cons_of_mem _ hq)
    simp only [List.map_cons]
    rw [parseAnnLines, if_neg (relationLine_ne_nil k r),
      parseAnnLine_relationLine k r hok1, ih hok2]

theorem entityLine_no_newline (k : Nat) (e : Entity) (h : EntityOk e) :
    '\n' ∉ entityLine k e := by
  obtain ⟨⟨hl1, _, _⟩, ⟨ht1, _⟩, _⟩ := h
  intro hm
  rw [entityLine] at hm
  rcases List.mem_cons.mp hm with hm | hm
  · exact absurd hm (by decide)
  rcases List.mem_append.mp hm with hm | hm
  · exact nl_not_mem_natChars hm
  rcases List.mem_cons.mp hm with hm | hm
  · exact absurd hm (by decide)
  rcases List.mem_append.mp hm with hm | hm
  · rcases List.mem_append.mp hm with hm | hm
    · exact hl1 hm
    rcases List.mem_cons.mp hm with hm | hm
    · exact absurd hm (by decide)
    rcases List.mem_append.mp hm with hm | hm
    · exact nl_not_mem_natChars hm
    rcases List.mem_cons.mp hm with hm | hm
    · exact absurd hm (by decide)
    · exact nl_not_mem_natChars hm
  · rcases List.mem_cons.mp hm with hm | hm
    · exact absurd hm (by decide)
    · exact ht1 hm

theorem relationLine_no_newline (k : Nat) (r : Relation) (h : RelationOk r) :
    '\n' ∉ relationLine k r := by
  obtain ⟨hl1, _, _⟩ := h
  intro hm
  rw [relationLine] at hm
  rcases List.mem_cons.mp hm with hm | hm
  · exact absurd hm (by decide)
  rcases List.mem_append.mp hm with hm | hm
  · exact nl_not_mem_natChars hm
  rcases List.mem_cons.mp hm with hm | hm
  · exact absurd hm (by decide)
  rcases List.mem_append.mp hm with hm | hm
  · exact hl1 hm
  rcases List.mem_cons.mp hm with hm | hm
  · exact absurd hm (by decide)
  rcases List.mem_append.mp hm with hm | hm
  · rcases List.mem_cons.mp hm with hm | hm
    · exact absurd hm (by decide)
    · exact nl_not_mem_natChars hm
  rcases List.mem_cons.mp hm with hm | hm
  · exact absurd hm (by decide)
  rcases List.mem_cons.mp hm with hm | hm
  · exact absurd hm (by decide)
  · exact nl_not_mem_natChars hm

theorem annLines_no_newline (M : Annotations) (h : ModelOk M) :
    ∀ l ∈ annLines M, '\n' ∉ l := by
  intro l hl
  rcases List.mem_append.mp hl with hm | hm
  · obtain ⟨p, hp, rfl⟩ := List.mem_map.mp hm
    exact entityLine_no_newline p.1 p.2 (h.1 p hp)
  · obtain ⟨p, hp, rfl⟩ := List.mem_map.mp hm
    exact relationLine_no_newline p.1 p.2 (h.2 p hp)

/-- Serializing any model the parser could have produced and re-parsing
rebuilds its entity and relation arenas exactly. -/
theorem from_ann_to_ann (M : Annotations) (h : ModelOk M) :
    from_ann (to_ann M) = .ok ⟨M.entities, M.relations, none⟩ := by
  cases hA : annLines M with
  | nil =>
    obtain ⟨h1, h2⟩ := List.append_eq_nil.mp hA
    have he : M.entities = [] := List.map_eq_nil_iff.mp h1
    have hr : M.relations = [] := List.map_eq_nil_iff.mp h2
    rw [to_ann, hA, he, hr]
    rfl
  | cons l0 ls0 =>
    rw [from_ann, to_ann,
      splitOnChar_joinWithChar '\n' (annLines M) (by rw [hA]; simp)
        (annLines_no_newline M h),
      annLines, parseAnnLines_entLines M.entities h.1 _,
      parseAnnLines_relLines M.relations h.2]
    simp

/-! Every record a successful standoff parse produces is well formed:
its fields come from within one line, so they carry no delimiter. -/

theorem parseEntityBody_ok (rest : List Char) (k : Nat) (e : Entity)
    (hn : '\n' ∉ rest) (h : parseEntityBody rest = some (k, e)) :
    EntityOk e := by
  rw [parseEntityBody] at h
  split at h
  case _ idChars middle textChars heq =>
    split at h
    case _ k2 labelChars sChars eChars hid hsp =>
      split at h
      case _ s e2 hs he2 =>
        split at h
        case isTrue hse =>
          have hinj := Option.some.inj h
          obtain ⟨hk, hent⟩ := Prod.mk.injEq .. |>.mp hinj
          subst hent
          have hmidmem : middle ∈ splitOnChar '\t' rest := by
            rw [heq]
            simp
          have htextmem : textChars ∈ splitOnChar '\t' rest := by
            rw [heq]
            simp
          have hlabmem : labelChars ∈ splitOnChar ' ' middle := by
            rw [hsp]
            simp
          have hlab_sub : ∀ c ∈ labelChars, c ∈ rest := fun c hc =>
            mem_of_mem_splitOnChar '\t' rest middle c hmidmem
              (mem_of_mem_splitOnChar ' ' middle labelChars c hlabmem hc)
          have htext_sub : ∀ c ∈ textChars, c ∈ rest := fun c hc =>
            mem_of_mem_splitOnChar '\t' rest textChars c htextmem hc
          refine ⟨⟨?_, ?_, ?_⟩, ⟨?_, ?_⟩, hse⟩
          · exact fun hc => hn (hlab_sub _ hc)
          · exact fun hc =>
              not_mem_of_mem_splitOnChar '\t' rest middle hmidmem
                (mem_of_mem_splitOnChar ' ' middle labelChars _ hlabmem hc)
          · exact fun hc =>
              not_mem_of_mem_splitOnChar ' ' middle labelChars hlabmem hc
          · exact fun hc => hn (htext_sub _ hc)
          · exact fun hc =>
              not_mem_of_mem_splitOnChar '\t' rest textChars htextmem hc
        case isFalse => exact absurd h (by simp)
      case _ => exact absurd h (by simp)
    case _ => exact absurd h (by simp)
  case _ => exact absurd h (by simp)

theorem parseRelBody_ok (rest : List Char) (k : Nat) (r : Relation)
    (hn : '\n' ∉ rest) (h : parseRelBody rest = some (k, r)) :
    RelationOk r := by
  rw [parseRelBody] at h
  split at h
  case _ idChars middle heq =>
    split at h
    case _ k2 labelChars a1 a2 hid hsp =>
      split at h
      case _ e1Chars e2Chars ha1 ha2 =>
        split at h
        case _ e1 e2 he1 he2 =>
          have hinj := Option.some.inj h
          obtain ⟨hk, hrel⟩ := Prod.mk.injEq .. |>.mp hinj
          subst hrel
          have hmidmem : middle ∈ splitOnChar '\t' rest := by
            rw [heq]
            simp
          have hlabmem : labelChars ∈ splitOnChar ' ' middle := by
            rw [hsp]
            simp
          refine ⟨?_, ?_, ?_⟩
          · exact fun hc => hn
              (mem_of_mem_splitOnChar '\t' rest middle _ hmidmem
                (mem_of_mem_splitOnChar ' ' middle labelChars _ hlabmem hc))
          · exact fun hc =>
              not_mem_of_mem_splitOnChar '\t' rest middle hmidmem
                (mem_of_mem_splitOnChar ' ' middle labelChars _ hlabmem hc)
          · exact fun hc =>
              not_mem_of_mem_splitOnChar ' ' middle labelChars hlabmem hc
        case _ => exact absurd h (by simp)
      case _ => exact absurd h (by simp)
    case _ => exact absurd h (by simp)
  case _ => exact absurd h (by simp)

theorem parseAnnLine_ok_ent (line : List Char) (k : Nat) (e : Entity)
    (hn : '\n' ∉ line) (h : parseAnnLine line = some (.ent k e)) :
    EntityOk e := by
  cases line with
  | nil => exact absurd h (by simp [parseAnnLine])
  | cons c rest =>
    rw [parseAnnLine] at h
    by_cases hc : c = 'T'
    · rw [if_pos hc] at h
      obtain ⟨⟨k2, e2⟩, hb, hinj⟩ := Option.map_eq_some'.mp h
      obtain ⟨hk, he⟩ : k2 = k ∧ e2 = e := by
        cases hinj
        exact ⟨rfl, rfl⟩
      rw [← he]
      exact parseEntityBody_ok rest k2 e2
        (fun hc2 => hn (List.mem_cons_of_mem _ hc2)) hb
    · rw [if_neg hc] at h
      by_cases hc2 : c = 'R'
      · rw [if_pos hc2] at h
        obtain ⟨⟨k2, r2⟩, hb, hinj⟩ := Option.map_eq_some'.mp h
        exact absurd hinj (by simp)
      · rw [if_neg hc2] at h
        exact absurd h (by simp)

theorem parseAnnLine_ok_rel (line : List Char) (k : Nat) (r : Relation)
    (hn : '\n' ∉ line) (h : parseAnnLine line = some (.rel k r)) :
    RelationOk r := by
  cases line with
  | nil => exact absurd h (by simp [parseAnnLine])
  | cons c rest =>
    rw [parseAnnLine] at h
    by_cases hc : c = 'T'
    · rw [if_pos hc] at h
      obtain ⟨⟨k2, e2⟩, hb, hinj⟩ := Option.map_eq_some'.mp h
      exact absurd hinj (by simp)
    · rw [if_neg hc] at h
      by_cases hc2 : c = 'R'
      · rw [if_pos hc2] at h
        obtain ⟨⟨k2, r2⟩, hb, hinj⟩ := Option.map_eq_some'.mp h
        obtain ⟨hk, hr⟩ : k2 = k ∧ r2 = r := by
          cases hinj
          exact ⟨rfl, rfl⟩
        rw [← hr]
        exact parseRelBody_ok rest k2 r2
          (fun hc3 => hn (List.mem_cons_of_mem _ hc3)) hb
      · rw [if_neg hc2] at h
        exact absurd h (by simp)

theorem parseAnnLines_ok (lines : List (List Char)) :
    ∀ (es : List (Nat × Entity)) (rs : List (Nat × Relation)),
      (∀ l ∈ lines, '\n' ∉ l) → parseAnnLines lines = .ok (es, rs) →
      (∀ p ∈ es, EntityOk p.2) ∧ (∀ p ∈ rs, RelationOk p.2) := by
  induction lines with
  | nil =>
    intro es rs _ h
    have hinj := Except.ok.inj h
    obtain ⟨h1, h2⟩ := Prod.mk.injEq .. |>.mp hinj
    subst h1
    subst h2
    exact ⟨fun p hp => absurd hp (by simp), fun p hp => absurd hp (by simp)⟩
  | cons line rest ih =>
    intro es rs hn h
    rw [parseAnnLines] at h
    by_cases hl : line = []
    · rw [if_pos hl] at h
      exact ih es rs (fun l hm => hn l (List.mem_cons_of_mem _ hm)) h
    · rw [if_neg hl] at h
      cases hp : parseAnnLine line with
      | none =>
        rw [hp] at h
        exact absurd h (by simp)
      | some rec =>
        rw [hp] at h
        cases rec with
        | ent k e =>
          cases hrest : parseAnnLines rest with
          | ok v =>
            obtain ⟨es2, rs2⟩ := v
            rw [hrest] at h
            have hinj := Except.ok.inj h
            obtain ⟨h1, h2⟩ := Prod.mk.injEq .. |>.mp hinj
            subst h1
            subst h2
            have hone : EntityOk e :=
              parseAnnLine_ok_ent line k e (hn line (by simp)) hp
            have hrec := ih es2 rs2
              (fun l hm => hn l (List.mem_cons_of_mem _ hm)) hrest
            refine ⟨?_, hrec.2⟩
            intro p hp2
            rcases List.mem_cons.mp hp2 with rfl | hp3
            · exact hone
            · exact hrec.1 p hp3
          | error err =>
            rw [hrest] at h
            exact absurd h (by simp)
        | rel k r =>
          cases hrest : parseAnnLines rest with
          | ok v =>
            obtain ⟨es2, rs2⟩ := v
            rw [hrest] at h
            have hinj := Except.ok.inj h
            obtain ⟨h1, h2⟩ := Prod.mk.injEq .. |>.mp hinj
            subst h1
            subst h2
            have hone : RelationOk r :=
              parseAnnLine_ok_rel line k r (hn line (by simp)) hp
            have hrec := ih es2 rs2
              (fun l hm => hn l (List.mem_cons_of_mem _ hm)) hrest
            refine ⟨hrec.1, ?_⟩
            intro p hp2
            rcases List.mem_cons.mp hp2 with rfl | hp3
            · exact hone
            · exact hrec.2 p hp3
          | error err =>
            rw [hrest] at h
            exact absurd h (by simp)

/-- A model that the standoff parser returns is well formed. -/
theorem from_ann_ok_ModelOk (content : List Char) (M : Annotations)
    (h : from_ann content = .ok M) : ModelOk M := by
  rw [from_ann] at h
  cases hp : parseAnnLines (splitOnChar '\n' content) with
  | ok v =>
    obtain ⟨es, rs⟩ := v
    rw [hp] at h
    have hM := Except.ok.inj h
    have hlines : ∀ l ∈ splitOnChar '\n' content, '\n' ∉ l :=
      fun l hl => not_mem_of_mem_splitOnChar '\n' content l hl
    have hrec := parseAnnLines_ok _ es rs hlines hp
    rw [← hM]
    exact ⟨hrec.1, hrec.2⟩
  | error err =>
    rw [hp] at h
    exact absurd h (by simp)

/-! Claim C2. -/

/-- C2: for a model validly parsed from the standoff format, serializing
and re-parsing succeeds and rebuilds the entity and relation arenas
exactly — in particular the entity 4-tuple sets agree — and serialization
is a deterministic function of the entity and relation content alone. -/
theorem c2_ann_round_trip (content : List Char) (M : Annotations)
    (h : from_ann content = .ok M) :
    from_ann (to_ann M) = .ok ⟨M.entities, M.relations, none⟩
    ∧ (get_entity_annotations (⟨M.entities, M.relations, none⟩ : Annotations)).toFinset =
        (get_entity_annotations M).toFinset
    ∧ (∀ M1 M2 : Annotations, M1.entities = M2.entities →
        M1.relations = M2.relations → to_ann M1 = to_ann M2) := by
  refine ⟨from_ann_to_ann M (from_ann_ok_ModelOk content M h), rfl, ?_⟩
  intro M1 M2 h1 h2
  rw [to_ann, to_ann, annLines, annLines, h1, h2]

/-- C2 witness: the one-entity standoff file parses, and serializing the
parsed model and re-parsing returns the model itself. -/
theorem c2_witness :
    from_ann (to_ann exM) = .ok ⟨exM.entities, exM.relations, none⟩ :=
  (c2_ann_round_trip exAnnContent exM (by decide)).1

end Medacy
